import Mathlib

/-!
Verification development for the RepoCoder repository
(`repocoder/main.py`).  The Python functions are shallowly embedded as
Lean definitions: filesystem contents, environment variables and the
network are passed in explicitly as data or oracle functions; strings
are Lean strings; Python lists are Lean lists.  Paths are modelled as
lists of path components (the `os.path.join` / `os.path.relpath` string
plumbing is abstracted into component lists).
-/

/-! ## String helpers (Python str operations used by the source) -/

/-- Boolean prefix test on character lists (Python `str.startswith`). -/
def isPre : List Char → List Char → Bool
  | [], _ => true
  | _ :: _, [] => false
  | a :: as, b :: bs => a == b && isPre as bs

/-- Python `s.startswith(p)`. -/
def strStartsWith (s p : String) : Bool := isPre p.data s.data

/-- Python `s.endswith(p)`. -/
def strEndsWith (s p : String) : Bool := isPre p.data.reverse s.data.reverse

/-- Python `c in s` for a single character. -/
def strContainsChar (s : String) (c : Char) : Bool := s.data.contains c

/-- Python `s[:-1]`: drop the final character. -/
def dropLastChar (s : String) : String := ⟨s.data.dropLast⟩

/-- Python `s.replace("*", "")`: remove every star character. -/
def removeStars (s : String) : String := ⟨s.data.filter (fun c => c != '*')⟩

/-- Python `s.strip()`: remove whitespace from both ends. -/
def pyStrip (s : String) : String :=
  ⟨((s.data.dropWhile Char.isWhitespace).reverse.dropWhile Char.isWhitespace).reverse⟩

/-! ## fnmatch

Embedding of `fnmatch.fnmatch` as used by the source: a glob match
supporting `*` (any sequence) and `?` (any single character); the
character-class form `[seq]` is not used by any pattern in the
repository and is treated as a literal here.  On POSIX,
`fnmatch.fnmatch` does no case normalisation. -/

/-- Glob matching of a pattern (first argument) against a name. -/
def globMatch : List Char → List Char → Bool
  | [], [] => true
  | [], _ :: _ => false
  | '*' :: ps, [] => globMatch ps []
  | '*' :: ps, c :: cs => globMatch ps (c :: cs) || globMatch ('*' :: ps) cs
  | '?' :: ps, _ :: cs => globMatch ps cs
  | '?' :: _, [] => false
  | p :: ps, c :: cs => p == c && globMatch ps cs
  | _ :: _, [] => false
termination_by ps cs => (ps.length, cs.length)

/-- Python `fnmatch.fnmatch(name, pattern)`. -/
def fnmatch (name pat : String) : Bool := globMatch pat.data name.data

/-! ## process_gitignore

The file IO is abstracted away: the input is the list of lines read
from the discovered `.gitignore` files (in order).  Each line is
classified exactly as in `process_gitignore` (main.py lines 58-76). -/

/-- Accumulator for the three exclusion lists: directories, files, extensions. -/
structure GitLists where
  dirs : List String
  files : List String
  exts : List String
deriving Repr, DecidableEq

/-- Classification of a single raw gitignore line (main.py lines 62-76). -/
def processLine (acc : GitLists) (raw : String) : GitLists :=
  let line := pyStrip raw
  if line = "" then acc
  else if strStartsWith line "#" then acc
  else if strEndsWith line "/" then { acc with dirs := acc.dirs ++ [dropLastChar line] }
  else if strStartsWith line "*." then { acc with exts := acc.exts ++ [removeStars line] }
  else if strContainsChar line '*' then { acc with files := acc.files ++ [line] }
  else { acc with files := acc.files ++ [line] }

/-- Embedding of `process_gitignore`: folds the classification over the
lines of the gitignore file(s). -/
def process_gitignore (lines : List String) : GitLists :=
  lines.foldl processLine { dirs := [], files := [], exts := [] }

/-! ## Exclusion merging (main.py lines 110-120) -/

def DEFAULT_EXCLUDE_DIRS : List String :=
  [".git", "__pycache__", "venv", "docs", "build", "dist"]

def DEFAULT_EXCLUDE_FILES : List String :=
  ["setup.py", "requirements.txt", ".env"]

def DEFAULT_EXCLUDE_EXTENSIONS : List String :=
  [".pyc", ".pyo", ".pyd"]

/-- The merged exclusion state used by `crawl_directory`: the three
merged lists plus the raw gitignore directory and extension pattern
lists, which the crawl additionally matches with `fnmatch`
(main.py lines 127-131 and 137-140). -/
structure Excl where
  excludeDirs : List String
  excludeFiles : List String
  excludeExts : List String
  gitDirPats : List String
  gitExtPats : List String
deriving Repr, DecidableEq

/-- Embedding of the exclusion-list initialisation at the top of
`crawl_directory` (main.py lines 110-120): defaults (when enabled),
then caller-supplied additions, then gitignore-derived lists. -/
def mergeExclusions (useDefaults : Bool)
    (addExts addDirs addFiles gitDirs gitFiles gitExts : List String) : Excl :=
  { excludeExts := (if useDefaults then DEFAULT_EXCLUDE_EXTENSIONS else []) ++ addExts ++ gitExts
  , excludeDirs := (if useDefaults then DEFAULT_EXCLUDE_DIRS else []) ++ addDirs ++ gitDirs
  , excludeFiles := (if useDefaults then DEFAULT_EXCLUDE_FILES else []) ++ addFiles ++ gitFiles
  , gitDirPats := gitDirs
  , gitExtPats := gitExts }

/-- The subdirectory filter applied to `dirs[:]` in the walk
(main.py lines 127-131): keep `d` when it is not in the merged
excluded-directory list and matches no gitignore directory pattern. -/
def keepDir (ex : Excl) (d : String) : Bool :=
  !(ex.excludeDirs.contains d) && !(ex.gitDirPats.any (fun p => fnmatch d p))

/-- The file filter of the walk body (main.py lines 138-140): keep
`f` when it is not in the merged excluded-file list, ends with no
excluded extension, and matches no gitignore extension pattern.
Note: the source applies `fnmatch` to `gitignore_exclude_extensions`
here, not to the gitignore wildcard file patterns, which are only in
`exclude_files` and hence only compared literally. -/
def keepFile (ex : Excl) (f : String) : Bool :=
  !(ex.excludeFiles.contains f)
    && !(ex.excludeExts.any (fun e => strEndsWith f e))
    && !(ex.gitExtPats.any (fun p => fnmatch f p))

/-! ## The filesystem and the crawl

A directory tree is a mutual inductive: a node holds an ordered forest
of named subdirectories and an ordered list of file names, in the
order the OS directory listing yields them (`os.walk` top-down order).
Structure entries mirror the Python `(rel_path, [])` / `(rel_file_path,
None)` tuples: a `dir` entry carries its (always-empty-in-the-source)
children list, a `file` entry carries no children. -/

mutual

inductive FSTree where
  | node (dirs : FSForest) (files : List String)

inductive FSForest where
  | nil
  | cons (name : String) (t : FSTree) (rest : FSForest)

end

/-- A structure entry as produced by `crawl_directory`: the Python
tuple `(rel_path, children)` with `children = None` for files and a
list for directories. Paths are component lists relative to the crawl
root. -/
inductive CEntry where
  | file (path : List String)
  | dir (path : List String) (children : List CEntry)

/-- Name projection used to state inequalities between entries. -/
def CEntry.childCount : CEntry → Nat
  | .file _ => 0
  | .dir _ cs => cs.length

mutual

/-- Embedding of the `os.walk` loop of `crawl_directory`
(main.py lines 126-145) for one visited directory: append the
directory entry when not the root (`rel_path != "."` becomes
`rel ≠ []`), then the kept files of this directory (structure entry
and flat file-path entry each), then recurse into the kept
subdirectories in listing order. -/
def crawlTree (ex : Excl) : FSTree → List String → List CEntry × List (List String)
  | .node dirs files, rel =>
    let kept := files.filter (keepFile ex)
    let dirEntry : List CEntry := if rel = [] then [] else [.dir rel []]
    let fileEntries : List CEntry := kept.map (fun f => .file (rel ++ [f]))
    let filePaths : List (List String) := kept.map (fun f => rel ++ [f])
    let sub := crawlForest ex dirs rel
    (dirEntry ++ fileEntries ++ sub.1, filePaths ++ sub.2)

/-- The recursion over the pruned subdirectory list: subdirectories
failing `keepDir` are skipped before descending (the in-place
`dirs[:] = [...]` prune), so excluded subtrees are never visited. -/
def crawlForest (ex : Excl) : FSForest → List String → List CEntry × List (List String)
  | .nil, _ => ([], [])
  | .cons d t rest, rel =>
    if keepDir ex d then
      let s1 := crawlTree ex t (rel ++ [d])
      let s2 := crawlForest ex rest rel
      (s1.1 ++ s2.1, s1.2 ++ s2.2)
    else crawlForest ex rest rel

end

/-- Embedding of `crawl_directory` (main.py lines 84-152): merge the
exclusions and walk the tree from the root. -/
def crawl_directory (tree : FSTree) (useDefaults : Bool)
    (addExts addDirs addFiles gitDirs gitFiles gitExts : List String) :
    List CEntry × List (List String) :=
  crawlTree (mergeExclusions useDefaults addExts addDirs addFiles gitDirs gitFiles gitExts) tree []

/-! ## generate_tree (main.py lines 155-176)

The input type mirrors the Python `List[Tuple[str, Optional[List]]]`:
an entry is a name together with either no substructure (`file`) or a
substructure list (`dir`).  The Python `if substructure:` truthiness
test recurses only into a non-empty list. -/

/-- One entry of the structure list handed to `generate_tree`: the
tuple `(name, None)` becomes `file name`, `(name, lst)` becomes
`dir name lst`. -/
inductive Entry where
  | file (name : String)
  | dir (name : String) (sub : List Entry)

/-- The name component of an entry. -/
def Entry.name : Entry → String
  | .file n => n
  | .dir n _ => n

/-- Total number of entries in a structure, counting entries at every
nesting level. -/
def countEntries : List Entry → Nat
  | [] => 0
  | .file _ :: rest => 1 + countEntries rest
  | .dir _ cs :: rest => 1 + countEntries cs + countEntries rest

/-- Embedding of `generate_tree`: for each entry, `is_last` is whether
it is the final sibling; one line `prefix + branch + name` is emitted,
and a truthy (non-empty) substructure is rendered under the extended
prefix. -/
def generate_tree : List Entry → String → List String
  | [], _ => []
  | e :: rest, pre =>
    let isLast : Bool := rest.isEmpty
    let branch := if isLast then "└── " else "├── "
    let newPre := pre ++ (if isLast then "    " else "│   ")
    let subLines :=
      match e with
      | .file _ => []
      | .dir _ cs => if cs.isEmpty then [] else generate_tree cs newPre
    (pre ++ branch ++ e.name) :: (subLines ++ generate_tree rest pre)

/-! ## get_code (main.py lines 179-245)

File IO, decoding and the `chardet` detector are abstracted into a
per-file outcome oracle: `tryEncoding e` is the content decoded with
encoding `e` (or `none` on a decode failure), `chardetContent` is the
content obtained through the chardet-detected encoding stage (or
`none` when the file is empty, no encoding is detected, or that decode
fails), `latin1` is the result of the final `latin-1` read (`none`
when even that read raises), and `fatal` models an exception escaping
to the outer handler (`MemoryError` or any other exception). -/

/-- An exception reaching the outer per-file handler of `get_code`. -/
inductive ReadFatal where
  | memory
  | other (msg : String)

/-- The read/decode behaviour of one file, as an oracle. -/
structure FileOutcome where
  tryEncoding : String → Option String
  chardetContent : Option String
  latin1 : Option String
  fatal : Option ReadFatal

/-- The common-encoding priority list of `get_code` (main.py line 190). -/
def common_encodings : List String :=
  ["utf-8", "ascii", "iso-8859-1", "windows-1252", "utf-16"]

/-- First successful decode among a list of encodings (the inner
`for encoding in common_encodings` loop with `break` on success). -/
def firstDecode (tryEnc : String → Option String) : List String → Option String
  | [] => none
  | e :: rest =>
    match tryEnc e with
    | some c => some c
    | none => firstDecode tryEnc rest

/-- The per-file body of the `get_code` loop: the staged fallback
cascade, each stage tried only when every earlier stage failed, with
the placeholder strings of the source for the failure exits. -/
def readOne (file : String) (o : FileOutcome) : String :=
  match o.fatal with
  | some .memory => "# Error: File " ++ file ++ " is too large to process"
  | some (.other msg) => "# Error reading file " ++ file ++ ": " ++ msg
  | none =>
    match firstDecode o.tryEncoding common_encodings with
    | some c => c
    | none =>
      match o.chardetContent with
      | some c => c
      | none =>
        match o.latin1 with
        | some c => c
        | none => "# Error reading file " ++ file ++ ": Unable to determine correct encoding"

/-- Embedding of `get_code`: the loop over the input files, appending
exactly the per-file result of the cascade for each file in order. -/
def get_code (fs : String → FileOutcome) : List String → List String
  | [] => []
  | f :: rest => readOne f (fs f) :: get_code fs rest

/-! ## write_code (main.py lines 248-270)

The sequence of `f.write` calls is modelled as a list of written
strings; the produced artifact is their concatenation. -/

/-- The per-file block written inside the `zip` loop of `write_code`. -/
def fileBlock (file content : String) : String :=
  "File Path: " ++ file ++ "\nCode:\n" ++ content ++ "\n\n"

/-- Embedding of `write_code` as the ordered list of `f.write` calls:
the header, the joined tree lines, the section marker, then one block
per `zip(files, code)` pair. -/
def write_code_writes (files code : List String) (tree : List String) : List String :=
  ["Directory Structure:\n", String.intercalate "\n" tree, "\n\nFile Contents:\n\n"]
    ++ (files.zip code).map (fun p => fileBlock p.1 p.2)

/-- Concatenation of a sequence of written strings. -/
def concatAll : List String → String
  | [] => ""
  | s :: rest => s ++ concatAll rest

/-- The full artifact text written by `write_code`: the concatenation
of the sequential `f.write` calls. -/
def write_code_output (files code : List String) (tree : List String) : String :=
  concatAll (write_code_writes files code tree)

/-- Spec-side artifact description, written from the words of the
spec: the literal header, the tree lines joined by newlines, the
content marker, then for each index in input order the block
`File Path: <path>\nCode:\n<content>\n\n` over the index-aligned
lists. -/
def artifactSpec (files code : List String) (tree : List String) : String :=
  "Directory Structure:\n" ++ String.intercalate "\n" tree ++ "\n\nFile Contents:\n\n"
    ++ concatAll ((List.range files.length).map (fun i =>
        "File Path: " ++ files.getD i "" ++ "\nCode:\n" ++ code.getD i "" ++ "\n\n"))

/-! ## Prompt builder (main.py lines 349-393) -/

/-- The fixed action lookup table `ACTION_DICT`. -/
def ACTION_DICT : List (String × String) :=
  [ ("code-review", "Please review the following code and provide suggestions or identify any errors.")
  , ("code-improvement", "Please suggest improvements to the following code.")
  , ("code-completion", "Please add to the following code by adding limited new files or missing functionality.")
  , ("code-correction", "Correct the following code by fixing any errors or issues.") ]

/-- Python `ACTION_DICT.get(action, action)`: an unknown action passes
through verbatim as the instruction text. -/
def actionInstruction (action : String) : String :=
  match ACTION_DICT.lookup action with
  | some v => v
  | none => action

/-- Embedding of `create_prompt`: the f-string template with the
resolved action instruction and the bundle content spliced in. The
template text is elided to its variable parts plus stable anchors; no
claim depends on the fixed instruction prose. -/
def create_prompt (content : String) (action : String) : String :=
  "\n    Action: " ++ actionInstruction action
    ++ "\n    Instructions: You will be given a directory structure followed by a set of Python files"
    ++ "\n    Content:\n    " ++ content ++ "\n    "

/-! ## API gateways (main.py lines 396-492)

The provider clients and the network are abstracted into an oracle
`net` mapping (api key, model, prompt) to either a reply text or a
provider-level error message.  The result records the returned value
(`Optional[str]` in the source), whether a network request was issued,
and the messages printed to the error stream. -/

/-- Result of one gateway call: the value returned to the caller,
whether the provider was actually contacted, and the error log. -/
structure GwOut where
  response : Option String
  networkCalled : Bool
  logs : List String
deriving Repr, DecidableEq

/-- Python truthiness-based key resolution (`if not api_key: api_key =
os.getenv(...)`): an argument that is `None` or empty falls back to
the environment value, which must itself be non-`None` and non-empty. -/
def resolveKey (arg envKey : Option String) : Option String :=
  let env :=
    match envKey with
    | some e => if e = "" then none else some e
    | none => none
  match arg with
  | some k => if k = "" then env else some k
  | none => env

/-- Embedding of `send_to_anthropic_api` (main.py lines 396-436):
resolve the key from the argument or the `ANTHROPIC_API_KEY`
environment value; when both are absent the raised `ValueError` is
caught by the generic handler, logged, and `None` is returned without
any network request; otherwise one request is issued and a provider
error yields `None` with a log line. -/
def send_to_anthropic_api (envKey : Option String)
    (net : String → String → String → Except String String)
    (content action model : String) (api_key : Option String) : GwOut :=
  match resolveKey api_key envKey with
  | none =>
    { response := none
    , networkCalled := false
    , logs := ["Error sending to Anthropic API: Anthropic API key not provided. Please provide an API key."] }
  | some k =>
    match net k model (create_prompt content action) with
    | .ok text => { response := some text, networkCalled := true, logs := [] }
    | .error e =>
      { response := none, networkCalled := true, logs := ["Anthropic API error: " ++ e] }

/-- The fixed system-instruction lines of `send_to_gemini_api`,
joined into the full prompt before the request. -/
def geminiSystemInstruction : List String :=
  [ "You are a world-class Python developer. Provide complete, error-free code only when changes are made."
  , "Include ALL comments in updated code. Never use placeholders or ellipsis."
  , "State 'No changes required' without including code if no changes are needed."
  , "Format in Markdown with appropriate headers, lists, and code blocks."
  , "Use triple backticks for code blocks without language specification."
  , "Analyze thoroughly before responding. Provide clear, concise change lists."
  , "Follow the exact format in the instructions." ]

/-- Embedding of `send_to_gemini_api` (main.py lines 439-492): same
key-resolution shape against `GEMINI_API_KEY`; the request carries the
system instruction joined with the prompt. -/
def send_to_gemini_api (envKey : Option String)
    (net : String → String → String → Except String String)
    (content action model_name : String) (api_key : Option String) : GwOut :=
  match resolveKey api_key envKey with
  | none =>
    { response := none
    , networkCalled := false
    , logs := ["Error sending to Gemini API: Gemini API key not provided. Please provide an API key."] }
  | some k =>
    let full_prompt :=
      String.intercalate "\n" geminiSystemInstruction ++ "\n\n" ++ create_prompt content action
    match net k model_name full_prompt with
    | .ok text => { response := some text, networkCalled := true, logs := [] }
    | .error e =>
      { response := none, networkCalled := true, logs := ["Error sending to Gemini API: " ++ e] }

/-! ## Response renderer (main.py lines 330-346)

The regular expression substitution `re.sub(r"` + "```" + `(?:python)?\n", ...)`
is embedded as a left-to-right scan over the characters: at each
position the scanner first tries the longer alternative (the fence
with the `python` tag), then the bare fence, and otherwise moves one
character; a match is replaced by the bare fence and scanning resumes
after the consumed characters, exactly the leftmost, non-overlapping
semantics of `re.sub`. -/

/-- The characters of the python-tagged fence pattern, that is, of
the string made of three backticks, the word python and a newline. -/
def pyFence : List Char := ['`', '`', '`', 'p', 'y', 't', 'h', 'o', 'n', '\n']

/-- The characters of the bare fence (also the replacement text):
three backticks and a newline. -/
def bareFence : List Char := ['`', '`', '`', '\n']

/-- The substitution scan of `re.sub` for this pattern. -/
def cleanFences : List Char → List Char
  | [] => []
  | c :: cs =>
    if isPre pyFence (c :: cs) then bareFence ++ cleanFences ((c :: cs).drop pyFence.length)
    else if isPre bareFence (c :: cs) then bareFence ++ cleanFences ((c :: cs).drop bareFence.length)
    else c :: cleanFences cs
termination_by l => l.length
decreasing_by
  · simp [pyFence]; omega
  · simp [bareFence]; omega
  · simp

/-- The cleaned reply text of `display_markdown_response`. -/
def cleanResponse (s : String) : String := ⟨cleanFences s.data⟩

/-- What the renderer does: persist and display the cleaned text, or
report the absence of a reply. -/
inductive RenderOut where
  | rendered (saved : String) (displayed : String)
  | noResponse
deriving Repr, DecidableEq

/-- Embedding of `display_markdown_response`: a truthy (non-empty)
reply is cleaned, written to `response.md` and displayed; otherwise
the no-response diagnostic is printed. -/
def display_markdown_response : Option String → RenderOut
  | some r => if r = "" then .noResponse else .rendered (cleanResponse r) (cleanResponse r)
  | none => .noResponse

/-! ## send_for_review (main.py lines 495-560)

The crawl/bundle stage is abstracted into the bundle text read back
from the artifact file; the two provider gateways are passed their
respective environment key and network oracle.  The result records
either the validation failure (the raised `ValueError`, caught and
printed by the outer handler) or the gateway outcome together with
the rendering of its response. -/

/-- Python `model or default`: a `None` or empty model argument is
replaced by the provider default. -/
def orDefault (m : Option String) (d : String) : String :=
  match m with
  | some s => if s = "" then d else s
  | none => d

/-- Outcome of `send_for_review`: `failed` for the validation-error
paths (no provider gateway invoked), `reviewed` once a gateway was
invoked. -/
inductive ReviewResult where
  | failed (msg : String)
  | reviewed (gw : GwOut) (render : RenderOut)
deriving Repr, DecidableEq

/-- Lower-casing of the provider name (Python `llm.lower()`). -/
def lowerStr (s : String) : String := ⟨s.data.map Char.toLower⟩

/-- Embedding of `send_for_review` after the bundle stage: the empty
content check, then the action validation (`len(action) <= 5` raises),
then the provider dispatch; only the dispatch can reach the network. -/
def send_for_review (envA envG : Option String)
    (netA netG : String → String → String → Except String String)
    (content action llm : String) (modelArg api_key : Option String) : ReviewResult :=
  if content = "" then .failed "No content found in the specified directory."
  else if action.length ≤ 5 then .failed "Invalid action. Please provide a valid action string."
  else if lowerStr llm = "anthropic" then
    let gw := send_to_anthropic_api envA netA content action (orDefault modelArg "claude-3-5-sonnet-latest") api_key
    .reviewed gw (display_markdown_response gw.response)
  else if lowerStr llm = "gemini" then
    let gw := send_to_gemini_api envG netG content action (orDefault modelArg "gemini-1.5-pro-002") api_key
    .reviewed gw (display_markdown_response gw.response)
  else .failed ("Unsupported LLM: " ++ llm ++ ". Please choose either 'anthropic' or 'gemini'.")

/-! ## Auxiliary specification-side predicates and test oracles -/

/-- Occurrence scan: whether the pattern occurs as a contiguous
subsequence anywhere in the list. -/
def occursSeq (pat : List Char) : List Char → Bool
  | [] => isPre pat []
  | c :: cs => isPre pat (c :: cs) || occursSeq pat cs

/-- Whether every triple-backtick fence in a text is language-neutral,
that is, immediately followed by a newline. -/
def fencesNeutral : List Char → Bool
  | '`' :: '`' :: '`' :: rest =>
    match rest with
    | '\n' :: rest2 => fencesNeutral rest2
    | _ => false
  | _ :: cs => fencesNeutral cs
  | [] => true

/-- An oracle for the C1 witness: one file decodes with the first
common encoding, the other fails everything up to the final
placeholder. -/
def c1Oracle : String → FileOutcome
  | "ok.py" =>
    { tryEncoding := fun e => if e = "utf-8" then some "print(1)" else none
    , chardetContent := none, latin1 := none, fatal := none }
  | _ =>
    { tryEncoding := fun _ => none
    , chardetContent := none, latin1 := none, fatal := some .memory }

/-! # Theorems -/

/-! ## C1: the file reader is length- and index-aligned -/

/-- C1: for every read-behaviour oracle and every list of file paths,
`get_code` returns exactly one content string per input path, in the
same order: the output has the same length as the input and the i-th
output is the content (or placeholder) the per-file cascade produces
for the i-th input path, in every case including decode failures and
memory-exhaustion failures (which `readOne` maps to placeholders
rather than dropping the entry). -/
theorem c1_get_code_index_aligned (fs : String → FileOutcome) (files : List String) :
    (get_code fs files).length = files.length ∧
    ∀ (i : Nat) (h1 : i < (get_code fs files).length) (h2 : i < files.length),
      (get_code fs files).get ⟨i, h1⟩
        = readOne (files.get ⟨i, h2⟩) (fs (files.get ⟨i, h2⟩)) := by
  induction files with
  | nil =>
    refine ⟨rfl, ?_⟩
    intro i _ h2
    exact absurd h2 (Nat.not_lt_zero i)
  | cons f rest ih =>
    refine ⟨by simpa [get_code] using ih.1, ?_⟩
    intro i h1 h2
    cases i with
    | zero => rfl
    | succ j =>
      have hj1 : j < (get_code fs rest).length := by
        simpa [get_code] using Nat.lt_of_succ_lt_succ h1
      have hj2 : j < rest.length := Nat.lt_of_succ_lt_succ h2
      simpa [get_code] using ih.2 j hj1 hj2

theorem c1_get_code_index_aligned_witness :
    (get_code c1Oracle ["ok.py", "huge.bin"]).get ⟨1, by decide⟩
      = readOne "huge.bin" (c1Oracle "huge.bin") :=
  (c1_get_code_index_aligned c1Oracle ["ok.py", "huge.bin"]).2 1 (by decide) (by decide)

/-! ## C5: a missing API key means a configuration error and no network call -/

/-- C5: when neither an explicit `api_key` argument nor the provider
environment variable is present, each gateway issues no network
request: the raised configuration `ValueError` is caught, its message
is emitted to the error stream, and `None` is returned to the caller. -/
theorem c5_missing_key_no_network
    (netA netG : String → String → String → Except String String)
    (content action model : String) :
    send_to_anthropic_api none netA content action model none
      = { response := none
        , networkCalled := false
        , logs := ["Error sending to Anthropic API: Anthropic API key not provided. Please provide an API key."] } ∧
    send_to_gemini_api none netG content action model none
      = { response := none
        , networkCalled := false
        , logs := ["Error sending to Gemini API: Gemini API key not provided. Please provide an API key."] } :=
  ⟨rfl, rfl⟩

/-! ## C4: action strings of length at most 5 are rejected before dispatch -/

/-- The unsupported-provider message can never coincide with the
invalid-action message, whatever the provider string is. -/
theorem unsupported_ne_invalid (llm : String) :
    ("Unsupported LLM: " ++ llm ++ ". Please choose either 'anthropic' or 'gemini'.")
      ≠ "Invalid action. Please provide a valid action string." := by
  intro h
  have h2 := congrArg String.data h
  rw [String.data_append, String.data_append] at h2
  have e1 : "Unsupported LLM: ".data = 'U' :: "nsupported LLM: ".data := rfl
  have e2 : "Invalid action. Please provide a valid action string.".data
      = 'I' :: "nvalid action. Please provide a valid action string.".data := rfl
  rw [e1, e2] at h2
  rw [List.cons_append] at h2
  have h3 : ('U' : Char) = 'I' := (List.cons.inj h2).1
  exact absurd h3 (by decide)

/-- C4: an action string of length at most 5 makes `send_for_review`
fail with a validation error on a path that never reaches a provider
gateway (the result is a `failed` value, produced before the dispatch
branches, so no network call is attempted); an action string of
length strictly greater than 5 is never rejected by this validation. -/
theorem c4_short_action_rejected (envA envG : Option String)
    (netA netG : String → String → String → Except String String)
    (content action llm : String) (modelArg api_key : Option String) :
    (action.length ≤ 5 →
      ∃ msg, send_for_review envA envG netA netG content action llm modelArg api_key
        = .failed msg) ∧
    (5 < action.length →
      send_for_review envA envG netA netG content action llm modelArg api_key
        ≠ .failed "Invalid action. Please provide a valid action string.") := by
  constructor
  · intro hle
    by_cases hc : content = ""
    · exact ⟨"No content found in the specified directory.", by simp [send_for_review, hc]⟩
    · exact ⟨"Invalid action. Please provide a valid action string.",
        by simp [send_for_review, hc, hle]⟩
  · intro hgt
    have hnle : ¬ action.length ≤ 5 := Nat.not_le_of_lt hgt
    by_cases hc : content = ""
    · simp only [send_for_review, if_pos hc]
      intro h
      exact absurd (ReviewResult.failed.inj h) (by decide)
    · simp only [send_for_review, if_neg hc, if_neg hnle]
      by_cases ha : lowerStr llm = "anthropic"
      · simp [ha]
      · by_cases hg : lowerStr llm = "gemini"
        · simp [ha, hg]
        · simp only [if_neg ha, if_neg hg]
          intro h
          exact absurd (ReviewResult.failed.inj h) (unsupported_ne_invalid llm)

theorem c4_short_action_rejected_witness :
    ("ab".length ≤ 5 ∧
      ∃ msg, send_for_review none none (fun _ _ _ => .error "e") (fun _ _ _ => .error "e")
        "bundle" "ab" "anthropic" none none = .failed msg) ∧
    (5 < "code-review".length ∧
      send_for_review none none (fun _ _ _ => .error "e") (fun _ _ _ => .error "e")
        "bundle" "code-review" "anthropic" none none
        ≠ .failed "Invalid action. Please provide a valid action string.") :=
  ⟨⟨by decide,
    (c4_short_action_rejected none none (fun _ _ _ => .error "e") (fun _ _ _ => .error "e")
      "bundle" "ab" "anthropic" none none).1 (by decide)⟩,
   ⟨by decide,
    (c4_short_action_rejected none none (fun _ _ _ => .error "e") (fun _ _ _ => .error "e")
      "bundle" "code-review" "anthropic" none none).2 (by decide)⟩⟩

/-! ## C10 and C6: the bundle writer -/

/-- Indexing into a zip of two lists. -/
theorem zip_getElem? {α β : Type} :
    ∀ (l1 : List α) (l2 : List β) (i : Nat) (h1 : i < l1.length) (h2 : i < l2.length),
      (l1.zip l2)[i]? = some (l1[i], l2[i])
  | _ :: _, _ :: _, 0, _, _ => by simp
  | _ :: l1, _ :: l2, i + 1, h1, h2 => by
    have ih := zip_getElem? l1 l2 i (Nat.lt_of_succ_lt_succ h1) (Nat.lt_of_succ_lt_succ h2)
    simpa using ih

/-- C10: on lists of unequal length, `write_code` runs to completion
with no error and writes exactly `min (len files) (len code)` file
blocks (after the three header writes): the `zip` pairing drops the
surplus entries of the longer list silently, and the blocks that are
written pair the i-th path with the i-th content. -/
theorem c10_write_code_zip_truncation (files code tree : List String) :
    (write_code_writes files code tree).length = 3 + min files.length code.length ∧
    ∀ (i : Nat) (h1 : i < files.length) (h2 : i < code.length),
      (write_code_writes files code tree)[3 + i]?
        = some (fileBlock files[i] code[i]) := by
  constructor
  · simp [write_code_writes, List.length_zip]
    omega
  · intro i h1 h2
    have hz := zip_getElem? files code i h1 h2
    have h3 : 3 + i = i + 1 + 1 + 1 := by omega
    rw [h3]
    simp [write_code_writes, hz]

theorem c10_write_code_zip_truncation_witness :
    (write_code_writes ["a.py", "b.py", "c.py"] ["x", "y"] ["t"]).length = 3 + min 3 2 ∧
    (write_code_writes ["a.py", "b.py", "c.py"] ["x", "y"] ["t"])[3 + 1]?
      = some (fileBlock "b.py" "y") :=
  ⟨(c10_write_code_zip_truncation ["a.py", "b.py", "c.py"] ["x", "y"] ["t"]).1,
   (c10_write_code_zip_truncation ["a.py", "b.py", "c.py"] ["x", "y"] ["t"]).2 1
     (by decide) (by decide)⟩

/-- The zipped block list coincides with the index-based block list of
the spec-side artifact description when the two lists have equal
length. -/
theorem zip_blocks_eq_range_blocks :
    ∀ (files code : List String), files.length = code.length →
      (files.zip code).map (fun p => fileBlock p.1 p.2)
        = (List.range files.length).map (fun i =>
            "File Path: " ++ files.getD i "" ++ "\nCode:\n" ++ code.getD i "" ++ "\n\n")
  | [], [], _ => rfl
  | [], _ :: _, h => by simp at h
  | _ :: _, [], h => by simp at h
  | f :: fs, c :: cs, h => by
    have ih := zip_blocks_eq_range_blocks fs cs (by simpa using h)
    rw [List.zip_cons_cons, List.map_cons, List.length_cons, List.range_succ_eq_map,
      List.map_cons, List.map_map]
    refine congrArg₂ List.cons ?_ ?_
    · simp [fileBlock]
    · rw [ih]
      apply List.map_congr_left
      intro i _
      simp [Function.comp]

/-- Associativity of string append, through the character lists. -/
theorem strAppend_assoc (a b c : String) : a ++ b ++ c = a ++ (b ++ c) := by
  apply String.ext
  simp only [String.data_append]
  exact List.append_assoc a.data b.data c.data

/-- C6: for aligned path/content lists, the artifact text produced by
`write_code` is exactly the spec-described string: the literal header
`Directory Structure:\n`, the tree lines joined by newlines, the
marker `\n\nFile Contents:\n\n`, then for each file in input order the
block `File Path: <path>\nCode:\n<content>\n\n`. -/
theorem c6_write_code_artifact_format (files code tree : List String)
    (h : files.length = code.length) :
    write_code_output files code tree = artifactSpec files code tree := by
  simp only [write_code_output, write_code_writes, artifactSpec, List.cons_append,
    List.nil_append, concatAll]
  rw [zip_blocks_eq_range_blocks files code h]
  simp [strAppend_assoc]

theorem c6_write_code_artifact_format_witness :
    (["a.py", "b.py"] : List String).length = (["x", "y"] : List String).length ∧
    write_code_output ["a.py", "b.py"] ["x", "y"] ["├── a.py", "└── b.py"]
      = artifactSpec ["a.py", "b.py"] ["x", "y"] ["├── a.py", "└── b.py"] :=
  ⟨rfl, c6_write_code_artifact_format ["a.py", "b.py"] ["x", "y"]
    ["├── a.py", "└── b.py"] rfl⟩

/-! ## C7: tree rendering emits one line per entry with last-sibling glyphs -/

/-- Number of lines contributed by a single entry: its own line plus
the lines of its (truthy) substructure. -/
theorem gt_length : ∀ (s : List Entry) (pre : String),
    (generate_tree s pre).length = countEntries s
  | [], _ => by simp [generate_tree, countEntries]
  | .file n :: rest, pre => by
    have ih := gt_length rest pre
    rw [generate_tree.eq_def]
    simp [countEntries, ih]
    omega
  | .dir n [] :: rest, pre => by
    have ih := gt_length rest pre
    rw [generate_tree.eq_def]
    simp [countEntries, ih]
    omega
  | .dir n (c :: cs) :: rest, pre => by
    have ih := gt_length rest pre
    have ihc := gt_length (c :: cs)
      (pre ++ (if rest.isEmpty then "    " else "│   "))
    rw [generate_tree.eq_def]
    simp [countEntries, ih, ihc]
    omega

theorem gt_glyph : ∀ (s : List Entry) (pre : String) (i : Nat) (h : i < s.length),
    (generate_tree s pre)[countEntries (s.take i)]?
      = some (pre ++ (if i = s.length - 1 then "└── " else "├── ") ++ (s.get ⟨i, h⟩).name)
  | e :: rest, pre, 0, _ => by
    cases rest with
    | nil =>
      rw [generate_tree.eq_def]
      simp [countEntries]
    | cons r rs =>
      rw [generate_tree.eq_def]
      simp [countEntries]
  | e :: rest, pre, i + 1, h => by
    have hi : i < rest.length := Nat.lt_of_succ_lt_succ h
    cases rest with
    | nil => exact absurd hi (Nat.not_lt_zero i)
    | cons r rs =>
      have ih := gt_glyph (r :: rs) pre i hi
      have hcond : (i + 1 = (e :: r :: rs).length - 1) = (i = (r :: rs).length - 1) := by
        simp only [List.length_cons]
        exact propext ⟨fun hx => by omega, fun hx => by omega⟩
      rw [List.take_succ_cons]
      rw [generate_tree.eq_def]
      simp only [List.isEmpty_cons, Bool.false_eq_true, ite_false, if_neg]
      cases e with
      | file nm =>
        have hidx : countEntries (.file nm :: (r :: rs).take i)
            = countEntries ((r :: rs).take i) + 1 := by
          simp [countEntries]; omega
        rw [hidx]
        simp only [List.nil_append, List.getElem?_cons_succ]
        simp only [hcond]
        simpa [Entry.name] using ih
      | dir nm cs =>
        cases cs with
        | nil =>
          have hidx : countEntries (.dir nm [] :: (r :: rs).take i)
              = countEntries ((r :: rs).take i) + 1 := by
            simp [countEntries]; omega
          rw [hidx]
          simp only [List.isEmpty_nil, ite_true, List.nil_append, List.getElem?_cons_succ]
          simp only [hcond]
          simpa [Entry.name] using ih
        | cons c cs =>
          have hm := gt_length (c :: cs) (pre ++ "│   ")
          have hidx : countEntries (.dir nm (c :: cs) :: (r :: rs).take i)
              = countEntries (c :: cs) + countEntries ((r :: rs).take i) + 1 := by
            simp [countEntries]; omega
          rw [hidx]
          simp only [List.isEmpty_cons, Bool.false_eq_true, ite_false, List.getElem?_cons_succ]
          rw [List.getElem?_append_right (by rw [hm]; omega)]
          rw [hm]
          have hsub : countEntries (c :: cs) + countEntries ((r :: rs).take i)
              - countEntries (c :: cs) = countEntries ((r :: rs).take i) := by omega
          rw [hsub]
          simp only [hcond]
          simpa [Entry.name] using ih


/-- C7: rendering a structure of N entries (counting entries at all
nesting levels) produces exactly N lines, and at each nesting level
(the theorem is stated for an arbitrary structure and prefix, so it
applies at every recursion level) the last sibling's line carries the
terminal glyph and every other sibling's line the non-terminal glyph:
the i-th sibling's line sits at offset `countEntries (s.take i)` and
reads `prefix ++ glyph ++ name` with the glyph chosen by last-ness. -/
theorem c7_generate_tree_lines (s : List Entry) (pre : String) :
    (generate_tree s pre).length = countEntries s ∧
    ∀ (i : Nat) (h : i < s.length),
      (generate_tree s pre)[countEntries (s.take i)]?
        = some (pre ++ (if i = s.length - 1 then "└── " else "├── ")
            ++ (s.get ⟨i, h⟩).name) :=
  ⟨gt_length s pre, gt_glyph s pre⟩

theorem c7_generate_tree_lines_witness :
    (generate_tree [.dir "sub" [.file "a.py"], .file "top.py"] "").length
      = countEntries [.dir "sub" [.file "a.py"], .file "top.py"] ∧
    (generate_tree [.dir "sub" [.file "a.py"], .file "top.py"] "")[countEntries
        ([Entry.dir "sub" [.file "a.py"], Entry.file "top.py"].take 1)]?
      = some ("" ++ (if 1 = 2 - 1 then "└── " else "├── ") ++ "top.py") :=
  ⟨(c7_generate_tree_lines [.dir "sub" [.file "a.py"], .file "top.py"] "").1,
   (c7_generate_tree_lines [.dir "sub" [.file "a.py"], .file "top.py"] "").2 1 (by decide)⟩

/-! ## C2: excluded directories are pruned transitively -/

mutual

/-- Every path recorded by the tree crawl below an accumulated
relative path decomposes into kept directory components followed by a
file name; the same holds for the paths of `file` structure entries. -/
theorem crawlTree_sound (ex : Excl) : ∀ (t : FSTree) (rel : List String),
    (∀ p ∈ (crawlTree ex t rel).2,
      ∃ ds f, p = rel ++ ds ++ [f] ∧ ∀ c ∈ ds, keepDir ex c = true) ∧
    (∀ q, CEntry.file q ∈ (crawlTree ex t rel).1 →
      ∃ ds f, q = rel ++ ds ++ [f] ∧ ∀ c ∈ ds, keepDir ex c = true)
  | .node dirs files, rel => by
    have ihF := crawlForest_sound ex dirs rel
    constructor
    · intro p hp
      simp only [crawlTree, List.mem_append, List.mem_map] at hp
      rcases hp with ⟨f, _, rfl⟩ | hp
      · exact ⟨[], f, by simp, by simp⟩
      · exact ihF.1 p hp
    · intro q hq
      simp only [crawlTree, List.append_assoc, List.mem_append, List.mem_map] at hq
      rcases hq with hq | ⟨f, _, hf⟩ | hq
      · by_cases hrel : rel = [] <;> simp [hrel] at hq
      · cases hf
        exact ⟨[], f, by simp, by simp⟩
      · exact ihF.2 q hq

/-- The forest version of `crawlTree_sound`: skipped (pruned)
subdirectories contribute nothing, descended ones prepend their kept
name to every recorded suffix. -/
theorem crawlForest_sound (ex : Excl) : ∀ (F : FSForest) (rel : List String),
    (∀ p ∈ (crawlForest ex F rel).2,
      ∃ ds f, p = rel ++ ds ++ [f] ∧ ∀ c ∈ ds, keepDir ex c = true) ∧
    (∀ q, CEntry.file q ∈ (crawlForest ex F rel).1 →
      ∃ ds f, q = rel ++ ds ++ [f] ∧ ∀ c ∈ ds, keepDir ex c = true)
  | .nil, rel => by
    constructor
    · intro p hp
      simp [crawlForest] at hp
    · intro q hq
      simp [crawlForest] at hq
  | .cons d t rest, rel => by
    have ihT := crawlTree_sound ex t (rel ++ [d])
    have ihR := crawlForest_sound ex rest rel
    by_cases hk : keepDir ex d = true
    · constructor
      · intro p hp
        simp only [crawlForest, hk, if_pos, List.mem_append] at hp
        rcases hp with hp | hp
        · obtain ⟨ds, f, rfl, hds⟩ := ihT.1 p hp
          refine ⟨d :: ds, f, by simp, ?_⟩
          intro c hc
          rcases List.mem_cons.mp hc with rfl | hc
          · exact hk
          · exact hds c hc
        · exact ihR.1 p hp
      · intro q hq
        simp only [crawlForest, hk, if_pos, List.mem_append] at hq
        rcases hq with hq | hq
        · obtain ⟨ds, f, rfl, hds⟩ := ihT.2 q hq
          refine ⟨d :: ds, f, by simp, ?_⟩
          intro c hc
          rcases List.mem_cons.mp hc with rfl | hc
          · exact hk
          · exact hds c hc
        · exact ihR.2 q hq
    · constructor
      · intro p hp
        rw [crawlForest.eq_def] at hp
        simp only [hk] at hp
        simp only [Bool.false_eq_true, if_false] at hp
        exact ihR.1 p hp
      · intro q hq
        rw [crawlForest.eq_def] at hq
        simp only [hk] at hq
        simp only [Bool.false_eq_true, if_false] at hq
        exact ihR.2 q hq

end

/-- A directory name kept by the walk filter is not in the merged
excluded-directory list. -/
theorem keepDir_not_mem {ex : Excl} {c : String} (h : keepDir ex c = true) :
    c ∉ ex.excludeDirs := by
  intro hmem
  simp [keepDir] at h
  exact h.1 hmem

/-- C2: for every directory tree and merged exclusion set, no file
below a directory whose name is in the excluded-directory set appears
in the crawl's flat file list or among the file entries of its
structure: every ancestor component of a recorded file path passed the
subdirectory filter, so excluded subtrees (at any depth) contribute
nothing. -/
theorem c2_excluded_dirs_never_appear (tree : FSTree) (useDefaults : Bool)
    (addExts addDirs addFiles gitDirs gitFiles gitExts : List String) :
    (∀ p ∈ (crawl_directory tree useDefaults addExts addDirs addFiles gitDirs gitFiles gitExts).2,
      ∀ c ∈ p.dropLast,
        c ∉ (mergeExclusions useDefaults addExts addDirs addFiles gitDirs gitFiles gitExts).excludeDirs) ∧
    (∀ q, CEntry.file q ∈ (crawl_directory tree useDefaults addExts addDirs addFiles gitDirs gitFiles gitExts).1 →
      ∀ c ∈ q.dropLast,
        c ∉ (mergeExclusions useDefaults addExts addDirs addFiles gitDirs gitFiles gitExts).excludeDirs) := by
  constructor
  · intro p hp c hc
    obtain ⟨ds, f, rfl, hds⟩ :=
      (crawlTree_sound (mergeExclusions useDefaults addExts addDirs addFiles gitDirs gitFiles gitExts)
        tree []).1 p hp
    rw [List.nil_append, List.dropLast_concat] at hc
    exact keepDir_not_mem (hds c hc)
  · intro q hq c hc
    obtain ⟨ds, f, rfl, hds⟩ :=
      (crawlTree_sound (mergeExclusions useDefaults addExts addDirs addFiles gitDirs gitFiles gitExts)
        tree []).2 q hq
    rw [List.nil_append, List.dropLast_concat] at hc
    exact keepDir_not_mem (hds c hc)

theorem c2_excluded_dirs_never_appear_witness :
    ["sub", "a.py"] ∈ (crawl_directory
      (.node (.cons "sub" (.node .nil ["a.py"]) .nil) []) true [] [] [] [] [] []).2 ∧
    "sub" ∈ (["sub", "a.py"] : List String).dropLast ∧
    "sub" ∉ (mergeExclusions true [] [] [] [] [] []).excludeDirs :=
  ⟨by decide, by decide,
   (c2_excluded_dirs_never_appear
      (.node (.cons "sub" (.node .nil ["a.py"]) .nil) []) true [] [] [] [] [] []).1
      ["sub", "a.py"] (by decide) "sub" (by decide)⟩

/-! ## C9: the structure list is flat, not nested -/

mutual

/-- Every directory entry the crawl records carries an empty children
list, and every recorded file path occurs as a `file` entry in the
same flat structure list (not inside any directory's children). -/
theorem crawlTree_flat (ex : Excl) : ∀ (t : FSTree) (rel : List String),
    (∀ q cs, CEntry.dir q cs ∈ (crawlTree ex t rel).1 → cs = []) ∧
    (∀ p ∈ (crawlTree ex t rel).2, CEntry.file p ∈ (crawlTree ex t rel).1)
  | .node dirs files, rel => by
    have ihF := crawlForest_flat ex dirs rel
    constructor
    · intro q cs hq
      simp only [crawlTree, List.append_assoc, List.mem_append, List.mem_map] at hq
      rcases hq with hq | ⟨f, _, hf⟩ | hq
      · by_cases hrel : rel = [] <;> simp [hrel] at hq
        exact hq.2
      · exact absurd hf (by simp)
      · exact ihF.1 q cs hq
    · intro p hp
      simp only [crawlTree, List.append_assoc, List.mem_append, List.mem_map] at hp ⊢
      rcases hp with ⟨f, hf, rfl⟩ | hp
      · exact Or.inr (Or.inl ⟨f, hf, rfl⟩)
      · exact Or.inr (Or.inr (ihF.2 p hp))

/-- Forest version of `crawlTree_flat`. -/
theorem crawlForest_flat (ex : Excl) : ∀ (F : FSForest) (rel : List String),
    (∀ q cs, CEntry.dir q cs ∈ (crawlForest ex F rel).1 → cs = []) ∧
    (∀ p ∈ (crawlForest ex F rel).2, CEntry.file p ∈ (crawlForest ex F rel).1)
  | .nil, rel => by
    constructor
    · intro q cs hq
      simp [crawlForest] at hq
    · intro p hp
      simp [crawlForest] at hp
  | .cons d t rest, rel => by
    have ihT := crawlTree_flat ex t (rel ++ [d])
    have ihR := crawlForest_flat ex rest rel
    by_cases hk : keepDir ex d = true
    · constructor
      · intro q cs hq
        simp only [crawlForest, hk, if_pos, List.mem_append] at hq
        rcases hq with hq | hq
        · exact ihT.1 q cs hq
        · exact ihR.1 q cs hq
      · intro p hp
        simp only [crawlForest, hk, if_pos, List.mem_append] at hp ⊢
        rcases hp with hp | hp
        · exact Or.inl (ihT.2 p hp)
        · exact Or.inr (ihR.2 p hp)
    · constructor
      · intro q cs hq
        rw [crawlForest.eq_def] at hq
        simp only [hk, Bool.false_eq_true, if_false] at hq
        exact ihR.1 q cs hq
      · intro p hp
        rw [crawlForest.eq_def] at hp ⊢
        simp only [hk, Bool.false_eq_true, if_false] at hp ⊢
        exact ihR.2 p hp

end

/-- C9 counterexample: for a root holding one subdirectory `sub` that
contains one file `a.py`, the returned structure is the flat list
`[(sub, []), (sub/a.py, None)]`: the directory entry's children list
is empty and the file appears as a separate sibling entry, so the
structure is not the claimed nested form in which the file entry sits
inside the directory entry's children. -/
theorem c9_counterexample_flat_not_nested :
    (crawl_directory (.node (.cons "sub" (.node .nil ["a.py"]) .nil) [])
        true [] [] [] [] [] []).1
      = [CEntry.dir ["sub"] [], CEntry.file ["sub", "a.py"]] ∧
    (crawl_directory (.node (.cons "sub" (.node .nil ["a.py"]) .nil) [])
        true [] [] [] [] [] []).1
      ≠ [CEntry.dir ["sub"] [CEntry.file ["sub", "a.py"]]] := by
  constructor
  · rfl
  · intro h
    rw [show (crawl_directory (.node (.cons "sub" (.node .nil ["a.py"]) .nil) [])
        true [] [] [] [] [] []).1
      = [CEntry.dir ["sub"] [], CEntry.file ["sub", "a.py"]] from rfl] at h
    exact absurd (congrArg List.length h) (by decide)

/-- C9 (amended): the structure returned by `crawl_directory` is a
flat pre-order listing: each visited non-root directory is recorded as
`(rel_path, [])` with an always-empty children list, each kept file as
a sibling entry `(rel_file_path, None)` in the same flat list, and
nesting is encoded only in the relative paths, never in children. -/
theorem c9_structure_flat (tree : FSTree) (useDefaults : Bool)
    (addExts addDirs addFiles gitDirs gitFiles gitExts : List String) :
    (∀ q cs, CEntry.dir q cs ∈ (crawl_directory tree useDefaults addExts addDirs addFiles gitDirs gitFiles gitExts).1 → cs = []) ∧
    (∀ p ∈ (crawl_directory tree useDefaults addExts addDirs addFiles gitDirs gitFiles gitExts).2,
      CEntry.file p ∈ (crawl_directory tree useDefaults addExts addDirs addFiles gitDirs gitFiles gitExts).1) :=
  crawlTree_flat (mergeExclusions useDefaults addExts addDirs addFiles gitDirs gitFiles gitExts) tree []

theorem c9_structure_flat_witness :
    ["sub", "a.py"] ∈ (crawl_directory
      (.node (.cons "sub" (.node .nil ["a.py"]) .nil) []) true [] [] [] [] [] []).2 ∧
    CEntry.file ["sub", "a.py"] ∈ (crawl_directory
      (.node (.cons "sub" (.node .nil ["a.py"]) .nil) []) true [] [] [] [] [] []).1 :=
  ⟨by decide,
   (c9_structure_flat (.node (.cons "sub" (.node .nil ["a.py"]) .nil) [])
      true [] [] [] [] [] []).2 ["sub", "a.py"] (by decide)⟩

/-! ## C3: wildcard file patterns from the ignore file are not fnmatch-applied -/

/-- C3: the ignore-file line `temp*.txt` (contains `*`, does not start
with `*.`, does not end with `/`) is classified as a wildcard file
pattern and lands in the excluded-file list; yet the crawl keeps the
file `temp1.txt`, because the walk's file filter compares the
excluded-file list only by literal name membership and applies
`fnmatch` to the gitignore extension list instead — even though
`temp1.txt` does match the wildcard `temp*.txt`, which is the
exclusion the spec describes. -/
theorem c3_wildcard_file_pattern_not_applied :
    (process_gitignore ["temp*.txt"]).files = ["temp*.txt"] ∧
    (crawl_directory (.node .nil ["temp1.txt", "keep.py"]) true [] [] []
        (process_gitignore ["temp*.txt"]).dirs
        (process_gitignore ["temp*.txt"]).files
        (process_gitignore ["temp*.txt"]).exts).2
      = [["temp1.txt"], ["keep.py"]] ∧
    fnmatch "temp1.txt" "temp*.txt" = true := by
  refine ⟨by decide, by decide, ?_⟩
  rw [fnmatch]
  rw [show "temp*.txt".data = ['t','e','m','p','*','.','t','x','t'] from rfl]
  rw [show "temp1.txt".data = ['t','e','m','p','1','.','t','x','t'] from rfl]
  simp [globMatch]

/-! ## C8: the renderer strips only the python fence tag -/

/-- A true prefix test decomposes the list. -/
theorem isPre_decomp : ∀ (p l : List Char), isPre p l = true → l = p ++ l.drop p.length
  | [], l, _ => rfl
  | a :: as, [], h => by simp [isPre] at h
  | a :: as, b :: bs, h => by
    simp only [isPre, Bool.and_eq_true, beq_iff_eq] at h
    have := isPre_decomp as bs (h.2)
    simp [h.1, List.cons_append]
    exact this

/-- Occurrences of the python fence are unaffected by a prepended bare
fence: no occurrence can start inside the four replacement characters. -/
theorem occursSeq_bare (out : List Char) :
    occursSeq pyFence (bareFence ++ out) = occursSeq pyFence out := by
  simp [bareFence, pyFence, occursSeq, isPre]

/-- A proper suffix of the python fence is never a prefix of a bare
fence followed by anything, unless it is empty. -/
theorem suffix_bare (s : List Char) (hs : s <:+ pyFence) (hne : s ≠ pyFence)
    (out : List Char) (hp : isPre s (bareFence ++ out) = true) : s = [] := by
  have hmem : s ∈ pyFence.tails := (List.mem_tails s pyFence).mpr hs
  have htails : pyFence.tails =
      [['`', '`', '`', 'p', 'y', 't', 'h', 'o', 'n', '\n'],
       ['`', '`', 'p', 'y', 't', 'h', 'o', 'n', '\n'],
       ['`', 'p', 'y', 't', 'h', 'o', 'n', '\n'],
       ['p', 'y', 't', 'h', 'o', 'n', '\n'],
       ['y', 't', 'h', 'o', 'n', '\n'],
       ['t', 'h', 'o', 'n', '\n'],
       ['h', 'o', 'n', '\n'],
       ['o', 'n', '\n'],
       ['n', '\n'],
       ['\n'],
       []] := by decide
  rw [htails] at hmem
  simp only [List.mem_cons, List.not_mem_nil, or_false] at hmem
  rcases hmem with h | h | h | h | h | h | h | h | h | h | h <;> subst h
  · simp [pyFence] at hne
  all_goals first
    | rfl
    | (exfalso; simp [isPre, bareFence] at hp)

/-- An empty-target prefix test forces an empty pattern. -/
theorem isPre_nil_target (s : List Char) (h : isPre s [] = true) : s = [] := by
  cases s with
  | nil => rfl
  | cons a as => simp [isPre] at h

/-- A prefix of the cleaned text that is a proper suffix of the python
fence is already a prefix of the original text: the scanner only ever
emits bare fences (which no such suffix can start) and characters at
positions where no fence matched. -/
theorem preLift : ∀ (x s : List Char), s <:+ pyFence → s ≠ pyFence →
    isPre s (cleanFences x) = true → isPre s x = true
  | [], s, _, _, hp => by
    rw [cleanFences] at hp
    rw [isPre_nil_target s hp]
    rfl
  | c :: cs, s, hs, hne, hp => by
    by_cases h1 : isPre pyFence (c :: cs) = true
    · rw [cleanFences, if_pos h1] at hp
      rw [suffix_bare s hs hne _ hp]
      rfl
    · by_cases h2 : isPre bareFence (c :: cs) = true
      · rw [cleanFences, if_neg h1, if_pos h2] at hp
        rw [suffix_bare s hs hne _ hp]
        rfl
      · rw [cleanFences, if_neg h1, if_neg h2] at hp
        cases s with
        | nil => rfl
        | cons a as =>
          simp only [isPre, Bool.and_eq_true, beq_iff_eq] at hp ⊢
          refine ⟨hp.1, ?_⟩
          have has : as <:+ pyFence :=
            List.IsSuffix.trans (List.suffix_cons a as) hs
          have hlen : (a :: as).length ≤ pyFence.length := List.IsSuffix.length_le hs
          have hane : as ≠ pyFence := by
            intro hcontra
            rw [hcontra] at hlen
            simp at hlen
          exact preLift cs as has hane hp.2
termination_by x => x.length

/-- After cleaning, the python-tagged fence occurs nowhere. -/
theorem noPyAfterClean : ∀ (x : List Char), occursSeq pyFence (cleanFences x) = false
  | [] => by rw [cleanFences]; simp [occursSeq, isPre, pyFence]
  | c :: cs => by
    by_cases h1 : isPre pyFence (c :: cs) = true
    · rw [cleanFences, if_pos h1, occursSeq_bare]
      exact noPyAfterClean ((c :: cs).drop pyFence.length)
    · by_cases h2 : isPre bareFence (c :: cs) = true
      · rw [cleanFences, if_neg h1, if_pos h2, occursSeq_bare]
        exact noPyAfterClean ((c :: cs).drop bareFence.length)
      · rw [cleanFences, if_neg h1, if_neg h2]
        rw [occursSeq]
        have ih := noPyAfterClean cs
        rw [ih, Bool.or_false]
        cases hb : isPre pyFence (c :: cleanFences cs) with
        | false => rfl
        | true =>
          exfalso
          have hpy : pyFence = '`' :: ['`', '`', 'p', 'y', 't', 'h', 'o', 'n', '\n'] := rfl
          rw [hpy] at hb
          simp only [isPre, Bool.and_eq_true, beq_iff_eq] at hb
          have hrest : isPre ['`', '`', 'p', 'y', 't', 'h', 'o', 'n', '\n'] cs = true :=
            preLift cs _ (by decide) (by decide) hb.2
          apply h1
          rw [hpy]
          simp only [isPre, Bool.and_eq_true, beq_iff_eq]
          exact ⟨hb.1, hrest⟩
termination_by x => x.length
decreasing_by
  · simp [pyFence]; omega
  · simp [bareFence]; omega
  · simp

/-- Occurrence scanning is antitone under dropping a prefix: if the
pattern occurs nowhere in the list it also occurs nowhere in any
suffix of the list. -/
theorem occursSeq_drop_false : ∀ (pat l : List Char) (k : Nat),
    occursSeq pat l = false → occursSeq pat (l.drop k) = false
  | _, _, 0, h => h
  | _, [], _ + 1, h => h
  | pat, _ :: cs, k + 1, h => by
    rw [occursSeq, Bool.or_eq_false_iff] at h
    exact occursSeq_drop_false pat cs k h.2

/-- A text with no python-tagged fence is left unchanged by the
cleaning scan: the bare-fence alternative replaces a bare fence with
itself, and all other characters are copied. -/
theorem cleanFences_id : ∀ (x : List Char), occursSeq pyFence x = false → cleanFences x = x
  | [], _ => by rw [cleanFences]
  | c :: cs, h => by
    have hsplit := h
    rw [occursSeq, Bool.or_eq_false_iff] at hsplit
    by_cases h1 : isPre pyFence (c :: cs) = true
    · exact absurd h1 (by simp [hsplit.1])
    · by_cases h2 : isPre bareFence (c :: cs) = true
      · rw [cleanFences, if_neg h1, if_pos h2]
        have hrest : occursSeq pyFence ((c :: cs).drop bareFence.length) = false :=
          occursSeq_drop_false pyFence (c :: cs) bareFence.length h
        rw [cleanFences_id ((c :: cs).drop bareFence.length) hrest]
        exact (isPre_decomp bareFence (c :: cs) h2).symm
      · rw [cleanFences, if_neg h1, if_neg h2, cleanFences_id cs hsplit.2]
termination_by x => x.length
decreasing_by
  · simp [bareFence]; omega
  · simp

/-- C8 counterexample: a reply whose only fenced block is annotated
`javascript` passes through the renderer unchanged — the cleaned,
persisted and displayed text still carries the `javascript` fence
annotation, so it is not language-neutral: the substitution only
matches the `python` annotation, not arbitrary language annotations. -/
theorem c8_counterexample_other_language_kept :
    display_markdown_response (some "```javascript\nx = 1\n```\n")
      = .rendered "```javascript\nx = 1\n```\n" "```javascript\nx = 1\n```\n" ∧
    fencesNeutral ("```javascript\nx = 1\n```\n" : String).data = false := by
  constructor
  · have hid : cleanFences ("```javascript\nx = 1\n```\n" : String).data
        = ("```javascript\nx = 1\n```\n" : String).data :=
      cleanFences_id _ (by decide)
    simp only [display_markdown_response, cleanResponse, hid]
    rw [if_neg (by decide)]
  · decide

/-- C8 (amended): for every non-empty reply text, the renderer
persists and displays one cleaned text in which no python-annotated
fence remains (each occurrence of the fence-plus-`python`-tag became a
bare fence), and a reply containing no python-annotated fence — in
particular one whose fences carry any other language annotation — is
passed through completely unchanged, so only the `python` annotation
is ever removed. -/
theorem c8_python_tag_stripped_only (s : String) (h : s ≠ "") :
    ∃ t, display_markdown_response (some s) = .rendered t t ∧
      occursSeq pyFence t.data = false ∧
      (occursSeq pyFence s.data = false → t = s) := by
  refine ⟨cleanResponse s, ?_, ?_, ?_⟩
  · simp [display_markdown_response, h]
  · exact noPyAfterClean s.data
  · intro hno
    rw [cleanResponse, cleanFences_id s.data hno]

theorem c8_python_tag_stripped_only_witness :
    ("```python\nx = 1\n```\n" : String) ≠ "" ∧
    ∃ t, display_markdown_response (some "```python\nx = 1\n```\n") = .rendered t t ∧
      occursSeq pyFence t.data = false ∧
      (occursSeq pyFence ("```python\nx = 1\n```\n" : String).data = false
        → t = "```python\nx = 1\n```\n") :=
  ⟨by decide, c8_python_tag_stripped_only "```python\nx = 1\n```\n" (by decide)⟩
